import Mathlib

/-!
# Verification of the persisted todo-list core of `src/App.tsx`

Shallow embedding of the list-management core: the `Todo` record, the three
collection operations wired to the UI buttons (add / toggle / remove), the
startup read of the persisted slot, and the JSON serialization used by the
persistence effect.  Definitions follow the TypeScript source; the JSON
codec models the platform's `JSON.stringify` / `JSON.parse` restricted to
the wire shape the app reads and writes.
-/

namespace TodoApp

/-- The `Todo` record of `App.tsx`: `interface Todo { id: number; text: string; done: boolean }`.
Ids are integers per the data model. -/
structure Todo where
  id : Int
  text : String
  done : Bool
deriving DecidableEq, Repr

/-- The add button's handler:
`setTodos([...todos, { id: todos.length + 1, text: inputValue, done: false }])`. -/
def add (todos : List Todo) (inputValue : String) : List Todo :=
  todos ++ [{ id := (todos.length : Int) + 1, text := inputValue, done := false }]

/-- The checkbox handler:
`todos.map(todo => todo.id === item.id ? { ...todo, done: !todo.done } : todo)`. -/
def toggle (todos : List Todo) (i : Int) : List Todo :=
  todos.map (fun todo => if todo.id = i then { todo with done := !todo.done } else todo)

/-- The delete button's handler: `todos.filter(todo => todo.id !== item.id)`. -/
def remove (todos : List Todo) (i : Int) : List Todo :=
  todos.filter (fun todo => todo.id != i)

/-- Modelled from the spec (§4.1): the id generation the spec mandates,
`max(existing ids, default 0) + 1`; the reference code uses `length + 1`
instead, which the spec documents as a defect. -/
def maxId (todos : List Todo) : Int :=
  todos.foldr (fun t m => max t.id m) 0

/-- The body of the closure the checkbox handler maps over the collection. -/
def toggleFun (i : Int) (todo : Todo) : Todo :=
  if todo.id = i then { todo with done := !todo.done } else todo

lemma toggle_eq_map (c : List Todo) (i : Int) : toggle c i = c.map (toggleFun i) := rfl

lemma toggleFun_of_ne {t : Todo} {i : Int} (h : t.id ≠ i) : toggleFun i t = t := if_neg h

lemma map_toggleFun_eq_self {i : Int} {l : List Todo} (h : ∀ t ∈ l, t.id ≠ i) :
    l.map (toggleFun i) = l := by
  rw [List.map_congr_left (fun t ht => toggleFun_of_ne (h t ht)), List.map_id']

lemma mem_remove {c : List Todo} {i : Int} {t : Todo} :
    t ∈ remove c i ↔ t ∈ c ∧ t.id ≠ i := by
  simp [remove, List.mem_filter, bne_iff_ne]

/-- C1: the claim says `add` assigns id `max(existing ids, default 0) + 1`; the
code assigns `length + 1` instead.  On the collection `[{id := 5, text := "x",
done := true}]` the code's new item gets id `2`, while the mandated id is `6`. -/
theorem add_assigns_length_plus_one_not_max :
    add [⟨5, "x", true⟩] "y" = [⟨5, "x", true⟩, ⟨2, "y", false⟩]
    ∧ maxId [⟨5, "x", true⟩] + 1 = 6
    ∧ (2 : Int) ≠ 6 := by
  refine ⟨rfl, rfl, by decide⟩

/-- C2 counterexample: on a collection holding two items with id 1 (a state
reachable through the length+1 id scheme), `toggle 1` flips both items, so the
result is not the input with exactly one item's `done` negated. -/
theorem toggle_duplicate_cex :
    toggle [⟨1, "a", false⟩, ⟨1, "b", false⟩] 1 = [⟨1, "a", true⟩, ⟨1, "b", true⟩]
    ∧ toggle [⟨1, "a", false⟩, ⟨1, "b", false⟩] 1 ≠ [⟨1, "a", true⟩, ⟨1, "b", false⟩]
    ∧ toggle [⟨1, "a", false⟩, ⟨1, "b", false⟩] 1 ≠ [⟨1, "a", false⟩, ⟨1, "b", true⟩] := by
  refine ⟨rfl, by decide, by decide⟩

/-- C2 (amended): when the collection has no item with the given id, `toggle`
is the identity; when it can be split around a unique occurrence of the id
(no other item carries it), exactly that item's `done` flag is negated and
everything else, order included, is unchanged. -/
theorem toggle_spec :
    (∀ (c : List Todo) (i : Int), (∀ t ∈ c, t.id ≠ i) → toggle c i = c)
    ∧ (∀ (l₁ l₂ : List Todo) (t : Todo) (i : Int),
        (∀ u ∈ l₁, u.id ≠ i) → (∀ u ∈ l₂, u.id ≠ i) → t.id = i →
        toggle (l₁ ++ t :: l₂) i = l₁ ++ { t with done := !t.done } :: l₂) := by
  constructor
  · intro c i h
    rw [toggle_eq_map, map_toggleFun_eq_self h]
  · intro l₁ l₂ t i h₁ h₂ ht
    rw [toggle_eq_map, List.map_append, List.map_cons,
      map_toggleFun_eq_self h₁, map_toggleFun_eq_self h₂, toggleFun, if_pos ht]

/-- C2 witness: toggling id 2 in a two-item collection with distinct ids flips
only the second item. -/
theorem toggle_spec_witness :
    toggle [⟨1, "a", false⟩, ⟨2, "b", false⟩] 2 = [⟨1, "a", false⟩, ⟨2, "b", true⟩] := by
  simpa using toggle_spec.2 [⟨1, "a", false⟩] [] ⟨2, "b", false⟩ 2
    (by decide) (by decide) rfl

/-- C3 counterexample: on a collection holding two items with id 1, `remove 1`
deletes both, so the result is not the collection minus a single matching item. -/
theorem remove_duplicate_cex :
    remove [⟨1, "a", false⟩, ⟨1, "b", false⟩] 1 = []
    ∧ remove [⟨1, "a", false⟩, ⟨1, "b", false⟩] 1 ≠ [⟨1, "a", false⟩]
    ∧ remove [⟨1, "a", false⟩, ⟨1, "b", false⟩] 1 ≠ [⟨1, "b", false⟩] := by
  refine ⟨rfl, by decide, by decide⟩

/-- C3 (amended): `remove` returns the items whose id differs, in their
original order (a sublist of the input), keeping every non-matching item with
its multiplicity; when no item matches, the collection is unchanged. -/
theorem remove_spec (c : List Todo) (i : Int) :
    ((∀ t ∈ c, t.id ≠ i) → remove c i = c)
    ∧ (remove c i).Sublist c
    ∧ (∀ t ∈ remove c i, t.id ≠ i)
    ∧ (∀ t : Todo, t.id ≠ i → (remove c i).count t = c.count t) := by
  refine ⟨?_, List.filter_sublist c, ?_, ?_⟩
  · intro h
    rw [remove, List.filter_eq_self.mpr]
    intro t ht
    simpa [bne_iff_ne] using h t ht
  · intro t ht
    exact (mem_remove.mp ht).2
  · intro t ht
    exact List.count_filter (by simpa [bne_iff_ne] using ht)

/-- C3 witness: removing an absent id leaves the collection unchanged. -/
theorem remove_spec_witness :
    remove [⟨1, "a", false⟩, ⟨2, "b", true⟩] 3 = [⟨1, "a", false⟩, ⟨2, "b", true⟩] :=
  (remove_spec [⟨1, "a", false⟩, ⟨2, "b", true⟩] 3).1 (by decide)

/-- C4: the claim says the scenario add "a", add "b", remove 1, add "c" must
not produce colliding ids; the code produces two items with id 2, because the
third add reuses `length + 1 = 2`. -/
theorem scenario_ids_collide :
    add (remove (add (add [] "a") "b") 1) "c" = [⟨2, "b", false⟩, ⟨2, "c", false⟩]
    ∧ (add (remove (add (add [] "a") "b") 1) "c").map Todo.id = [2, 2]
    ∧ ¬ ((add (remove (add (add [] "a") "b") 1) "c").map Todo.id).Nodup := by
  refine ⟨rfl, rfl, by decide⟩

/-- C5: the claim says `add` followed by `remove` at the new item's id restores
the pre-add collection.  Starting from `[{id := 2, text := "b", done := false}]`,
the code assigns the new item id `length + 1 = 2`, which collides with the
existing item, so the removal deletes both and yields `[]`, not the original. -/
theorem add_remove_not_inverse :
    remove (add [⟨2, "b", false⟩] "c") ((([⟨2, "b", false⟩] : List Todo).length : Int) + 1) = []
    ∧ ([] : List Todo) ≠ [⟨2, "b", false⟩] := by
  refine ⟨rfl, by decide⟩

/-- C6: toggling the same id twice restores the original collection, for every
collection (duplicate ids included) and every id, present or absent. -/
theorem toggle_toggle_self (c : List Todo) (i : Int) :
    toggle (toggle c i) i = c := by
  rw [toggle_eq_map, toggle_eq_map, List.map_map]
  have h : ∀ t : Todo, (toggleFun i ∘ toggleFun i) t = t := by
    rintro ⟨tid, ttext, tdone⟩
    by_cases ht : tid = i <;> simp [toggleFun, ht]
  rw [List.map_congr_left (fun t _ => h t), List.map_id']

/-- C9: every operation is total and yields a collection on every input: `add`
grows the collection by one, `toggle` preserves its length, and `remove` never
grows it. -/
theorem ops_total (c : List Todo) (s : String) (i : Int) :
    (add c s).length = c.length + 1
    ∧ (toggle c i).length = c.length
    ∧ (remove c i).length ≤ c.length := by
  refine ⟨by simp [add], by simp [toggle], ?_⟩
  simpa [remove] using List.length_filter_le (fun todo => todo.id != i) c

/-- C10: with duplicate ids in the collection, `toggle` flips the `done` flag
of every item carrying the id (positionally: each matching index is flipped,
each non-matching index untouched), and `remove` deletes every matching item
while keeping all non-matching ones. -/
theorem duplicate_ids_affect_all (ts : List Todo) (i : Int) :
    (toggle ts i).length = ts.length
    ∧ (∀ (k : Nat) (t : Todo), ts[k]? = some t →
        (t.id = i → (toggle ts i)[k]? = some { t with done := !t.done })
        ∧ (t.id ≠ i → (toggle ts i)[k]? = some t))
    ∧ (∀ t ∈ remove ts i, t.id ≠ i)
    ∧ (∀ t ∈ ts, t.id ≠ i → t ∈ remove ts i) := by
  refine ⟨by simp [toggle], ?_, ?_, ?_⟩
  · intro k t hk
    rw [toggle_eq_map]
    constructor
    · intro ht
      rw [List.getElem?_map (toggleFun i) ts k, hk]
      simp [toggleFun, ht]
    · intro ht
      rw [List.getElem?_map (toggleFun i) ts k, hk]
      simp [toggleFun_of_ne ht]
  · intro t ht
    exact (mem_remove.mp ht).2
  · intro t ht hne
    exact mem_remove.mpr ⟨ht, hne⟩

/-- C10 witness: in a collection holding two items with id 2, toggling id 2
flips the second matching item as well. -/
theorem duplicate_ids_affect_all_witness :
    (toggle [⟨2, "b", false⟩, ⟨2, "c", false⟩] 2)[1]? = some ⟨2, "c", true⟩ := by
  have h := (duplicate_ids_affect_all [⟨2, "b", false⟩, ⟨2, "c", false⟩] 2).2.1 1
    ⟨2, "c", false⟩ rfl
  exact h.1 rfl

/-! ## The persisted JSON wire format

`useEffect` persists with `localStorage.setItem('todos', JSON.stringify(todos))`
and the `useState` initializer reads the slot back through `JSON.parse`.
`JSON.stringify` and `JSON.parse` are platform built-ins, so they are modelled
here: the serializer follows ECMA-404/ECMA-262 exactly on the values the app
writes (array of `{"id": int, "text": string, "done": bool}` records, keys in
insertion order, standard string escaping), and the parser accepts the
canonical text the serializer emits, failing on anything else. -/

/-- The double-quote character, named to keep literals readable. -/
def quoteChar : Char := Char.ofNat 34

/-- Decimal digit character for `n < 10`. -/
def digitChar (n : Nat) : Char := Char.ofNat (48 + n)

/-- Lowercase hexadecimal digit character for `n < 16`, as `JSON.stringify`
emits in `\u00xx` escapes. -/
def hexDigitChar (n : Nat) : Char :=
  if n < 10 then Char.ofNat (48 + n) else Char.ofNat (87 + n)

/-- Digit-emitting loop for `natChars`; `fuel` only forces termination and any
`fuel > n` yields the numeral of `n` in front of `acc`. -/
def natCharsAux : Nat → Nat → List Char → List Char
  | 0, _, acc => acc
  | fuel + 1, n, acc =>
    if n < 10 then digitChar n :: acc
    else natCharsAux fuel (n / 10) (digitChar (n % 10) :: acc)

/-- Modelled from the spec (§6): decimal numeral of a natural number, most
significant digit first, as `JSON.stringify` renders an integral number. -/
def natChars (n : Nat) : List Char := natCharsAux (n + 1) n []

/-- Decimal numeral of an integer (minus sign for negatives). -/
def intChars (n : Int) : List Char :=
  if n < 0 then '-' :: natChars (-n).toNat else natChars n.toNat

/-- `JSON.stringify` string escaping for one character: quote and backslash
get a backslash escape, the five named control characters get their two-letter
escapes, every other control character below U+0020 becomes `\u00xx`, and all
remaining characters are emitted verbatim. -/
def escapeChar (ch : Char) : List Char :=
  if ch = quoteChar then ['\\', quoteChar]
  else if ch = '\\' then ['\\', '\\']
  else if ch = '\x08' then ['\\', 'b']
  else if ch = '\t' then ['\\', 't']
  else if ch = '\n' then ['\\', 'n']
  else if ch = '\x0c' then ['\\', 'f']
  else if ch = '\r' then ['\\', 'r']
  else if ch.toNat < 32 then
    ['\\', 'u', '0', '0', hexDigitChar (ch.toNat / 16), hexDigitChar (ch.toNat % 16)]
  else [ch]

/-- `JSON.stringify` escaping of a whole string body (without the quotes). -/
def escapeList (s : List Char) : List Char := s.flatMap escapeChar

/-- `true` / `false` as rendered on the wire. -/
def boolChars (b : Bool) : List Char := if b then "true".data else "false".data

/-- Wire text opening one record up to its `id` value. -/
def litItemOpen : List Char := "\x7b\"id\":".data

/-- Wire text between the `id` value and the `text` value (opening quote
included). -/
def litTextKey : List Char := ",\"text\":\"".data

/-- Wire text between the closing quote of `text` and the `done` value. -/
def litDoneKey : List Char := ",\"done\":".data

/-- Wire text closing one record. -/
def litItemClose : List Char := "\x7d".data

/-- One serialized record, `{"id":…,"text":"…","done":…}`, keys in the
insertion order of the object literal at `App.tsx:102`. -/
def serializeTodo (t : Todo) : List Char :=
  litItemOpen ++ intChars t.id ++ litTextKey ++ escapeList t.text.data
    ++ quoteChar :: (litDoneKey ++ boolChars t.done ++ litItemClose)

/-- `JSON.stringify` of the whole collection: a comma-separated array. -/
def serializeTodos (ts : List Todo) : String :=
  match ts with
  | [] => "[]"
  | t :: ts' =>
    String.mk ('[' :: (serializeTodo t
      ++ ts'.flatMap (fun u => ',' :: serializeTodo u) ++ [']']))

/-- Consume an expected literal text, returning the remainder. -/
def expectLit : List Char → List Char → Option (List Char)
  | [], l => some l
  | _ :: _, [] => none
  | p :: ps, x :: xs => if x = p then expectLit ps xs else none

/-- Does the text start with a decimal digit? -/
def headIsDigit : List Char → Bool
  | [] => false
  | ch :: _ => ch.isDigit

/-- Greedily consume decimal digits, folding them onto `acc`. -/
def parseDigitsAux : List Char → Nat → Nat × List Char
  | [], acc => (acc, [])
  | ch :: rest, acc =>
    if ch.isDigit then parseDigitsAux rest (10 * acc + (ch.toNat - 48))
    else (acc, ch :: rest)

/-- Parse a nonempty run of decimal digits as a natural number. -/
def parseNat (l : List Char) : Option (Nat × List Char) :=
  if headIsDigit l then some (parseDigitsAux l 0) else none

/-- Parse an optionally negated decimal integer. -/
def parseInt (l : List Char) : Option (Int × List Char) :=
  match l with
  | [] => none
  | ch :: rest =>
    if ch = '-' then
      match parseNat rest with
      | some (n, r) => some (-(n : Int), r)
      | none => none
    else
      match parseNat (ch :: rest) with
      | some (n, r) => some ((n : Int), r)
      | none => none

/-- Value of one hexadecimal digit character. -/
def hexVal (ch : Char) : Option Nat :=
  if '0' ≤ ch ∧ ch ≤ '9' then some (ch.toNat - 48)
  else if 'a' ≤ ch ∧ ch ≤ 'f' then some (ch.toNat - 87)
  else if 'A' ≤ ch ∧ ch ≤ 'F' then some (ch.toNat - 55)
  else none

/-- Value of a four-digit hexadecimal escape body. -/
def hexQuad (a b c₁ d : Char) : Option Nat := do
  let va ← hexVal a
  let vb ← hexVal b
  let vc ← hexVal c₁
  let vd ← hexVal d
  pure (4096 * va + 256 * vb + 16 * vc + vd)

/-- Parse a JSON string body after the opening quote: plain characters up to
the closing quote, with the standard backslash escapes (including `\uXXXX`);
raw control characters and malformed escapes are rejected, as `JSON.parse`
rejects them. -/
def parseStringBody : List Char → List Char → Option (List Char × List Char)
  | [], _ => none
  | ch :: rest, acc =>
    if ch = quoteChar then some (acc.reverse, rest)
    else if ch = '\\' then
      match rest with
      | [] => none
      | e :: rest' =>
        if e = quoteChar then parseStringBody rest' (quoteChar :: acc)
        else if e = '\\' then parseStringBody rest' ('\\' :: acc)
        else if e = '/' then parseStringBody rest' ('/' :: acc)
        else if e = 'b' then parseStringBody rest' ('\x08' :: acc)
        else if e = 'f' then parseStringBody rest' ('\x0c' :: acc)
        else if e = 'n' then parseStringBody rest' ('\n' :: acc)
        else if e = 'r' then parseStringBody rest' ('\r' :: acc)
        else if e = 't' then parseStringBody rest' ('\t' :: acc)
        else if e = 'u' then
          match rest' with
          | a :: b :: c₁ :: d :: rest₂ =>
            match hexQuad a b c₁ d with
            | some v =>
              if v.isValidChar then parseStringBody rest₂ (Char.ofNat v :: acc)
              else none
            | none => none
          | _ => none
        else none
    else if ch.toNat < 32 then none
    else parseStringBody rest (ch :: acc)

/-- Parse `true` or `false`. -/
def parseBool (l : List Char) : Option (Bool × List Char) :=
  match expectLit "true".data l with
  | some r => some (true, r)
  | none =>
    match expectLit "false".data l with
    | some r => some (false, r)
    | none => none

/-- Parse one serialized record. -/
def parseTodo (l : List Char) : Option (Todo × List Char) :=
  match expectLit litItemOpen l with
  | none => none
  | some r1 =>
    match parseInt r1 with
    | none => none
    | some (i, r2) =>
      match expectLit litTextKey r2 with
      | none => none
      | some r3 =>
        match parseStringBody r3 [] with
        | none => none
        | some (sChars, r4) =>
          match expectLit litDoneKey r4 with
          | none => none
          | some r5 =>
            match parseBool r5 with
            | none => none
            | some (b, r6) =>
              match expectLit litItemClose r6 with
              | none => none
              | some r7 => some (⟨i, String.mk sChars, b⟩, r7)

/-- Parse a nonempty comma-separated run of records followed by the closing
bracket; `fuel` bounds the number of records, one unit per record. -/
def parseItemsAux : Nat → List Char → Option (List Todo × List Char)
  | 0, _ => none
  | fuel + 1, l =>
    match parseTodo l with
    | none => none
    | some (t, r) =>
      match r with
      | ']' :: r' => some ([t], r')
      | ',' :: r' =>
        match parseItemsAux fuel r' with
        | some (ts, r'') => some (t :: ts, r'')
        | none => none
      | _ => none

/-- Modelled from the spec (§4.3, §6): `JSON.parse` of the persisted slot,
restricted to the wire shape the app writes — an array of records with integer
`id`, string `text`, boolean `done`, in that key order.  Any other text
(including JSON of a different shape, which the unchecked `as Todo[]` cast
would silently misread) is a deserialization failure. -/
def parseTodos (s : String) : Option (List Todo) :=
  match s.data with
  | '[' :: ']' :: rest => if rest.isEmpty then some [] else none
  | '[' :: l =>
    match parseItemsAux l.length l with
    | some (ts, r) => if r.isEmpty then some ts else none
    | none => none
  | _ => none

/-! ## Round-trip lemmas: numbers -/

lemma digitChar_isDigit {n : Nat} (h : n < 10) : (digitChar n).isDigit = true := by
  interval_cases n <;> decide

lemma digitChar_toNat {n : Nat} (h : n < 10) : (digitChar n).toNat - 48 = n := by
  interval_cases n <;> decide

lemma natCharsAux_append (fuel : Nat) : ∀ (n : Nat) (acc : List Char),
    natCharsAux fuel n acc = natCharsAux fuel n [] ++ acc := by
  induction fuel with
  | zero => intro n acc; rfl
  | succ f ih =>
    intro n acc
    by_cases h : n < 10
    · simp [natCharsAux, h]
    · simp only [natCharsAux, if_neg h]
      rw [ih (n / 10) (digitChar (n % 10) :: acc), ih (n / 10) [digitChar (n % 10)]]
      simp

lemma natCharsAux_cons (n : Nat) : ∀ fuel, n < fuel →
    ∃ d l, natCharsAux fuel n [] = d :: l ∧ d.isDigit = true := by
  induction n using Nat.strong_induction_on with
  | _ n ih =>
    intro fuel hf
    cases fuel with
    | zero => omega
    | succ f =>
      by_cases h : n < 10
      · exact ⟨digitChar n, [], by simp [natCharsAux, h], digitChar_isDigit h⟩
      · simp only [natCharsAux, if_neg h]
        rw [natCharsAux_append]
        obtain ⟨d, l, hdl, hd⟩ := ih (n / 10) (by omega) f (by omega)
        exact ⟨d, l ++ [digitChar (n % 10)], by rw [hdl]; simp, hd⟩

lemma parseDigitsAux_cons_digit {ch : Char} (h : ch.isDigit = true)
    (rest : List Char) (a : Nat) :
    parseDigitsAux (ch :: rest) a = parseDigitsAux rest (10 * a + (ch.toNat - 48)) := by
  simp [parseDigitsAux, h]

lemma parseDigitsAux_no_digit {l : List Char} (h : headIsDigit l = false) (a : Nat) :
    parseDigitsAux l a = (a, l) := by
  cases l with
  | nil => rfl
  | cons ch rest =>
    simp only [headIsDigit] at h
    simp [parseDigitsAux, h]

lemma parseDigitsAux_natCharsAux (n : Nat) : ∀ (fuel a : Nat) (rest : List Char), n < fuel →
    parseDigitsAux (natCharsAux fuel n [] ++ rest) a
      = parseDigitsAux rest (a * 10 ^ (natCharsAux fuel n []).length + n) := by
  induction n using Nat.strong_induction_on with
  | _ n ih =>
    intro fuel a rest hf
    cases fuel with
    | zero => omega
    | succ f =>
      by_cases h : n < 10
      · simp only [natCharsAux, if_pos h, List.cons_append, List.nil_append,
          List.length_cons, List.length_nil]
        rw [parseDigitsAux_cons_digit (digitChar_isDigit h), digitChar_toNat h]
        congr 1
        ring
      · simp only [natCharsAux, if_neg h]
        rw [natCharsAux_append]
        rw [List.append_assoc, ih (n / 10) (by omega) f a _ (by omega)]
        rw [List.singleton_append,
          parseDigitsAux_cons_digit (digitChar_isDigit (by omega : n % 10 < 10)),
          digitChar_toNat (by omega : n % 10 < 10)]
        rw [List.length_append, List.length_singleton]
        congr 1
        have hdm : 10 * (n / 10) + n % 10 = n := by omega
        set L := (natCharsAux f (n / 10) []).length with hL
        calc 10 * (a * 10 ^ L + n / 10) + n % 10
            = a * (10 ^ L * 10) + (10 * (n / 10) + n % 10) := by ring
          _ = a * 10 ^ (L + 1) + n := by rw [hdm, pow_succ]

lemma parseNat_natChars (n : Nat) {rest : List Char} (h : headIsDigit rest = false) :
    parseNat (natChars n ++ rest) = some (n, rest) := by
  obtain ⟨d, l, hdl, hd⟩ := natCharsAux_cons n (n + 1) (by omega)
  have hhead : headIsDigit (natChars n ++ rest) = true := by
    unfold natChars
    rw [hdl]
    simpa [headIsDigit] using hd
  unfold parseNat
  rw [hhead]
  simp only [if_true]
  unfold natChars
  rw [parseDigitsAux_natCharsAux n (n + 1) 0 rest (by omega), parseDigitsAux_no_digit h]
  simp

lemma not_isDigit_minus : ('-').isDigit = false := rfl

lemma parseInt_intChars (n : Int) {rest : List Char} (h : headIsDigit rest = false) :
    parseInt (intChars n ++ rest) = some (n, rest) := by
  by_cases hn : n < 0
  · simp only [intChars, if_pos hn, List.cons_append]
    have : parseInt ('-' :: (natChars (-n).toNat ++ rest))
        = match parseNat (natChars (-n).toNat ++ rest) with
          | some (m, r) => some (-(m : Int), r)
          | none => none := by
      simp [parseInt]
    rw [this, parseNat_natChars _ h]
    have hcast : (((-n).toNat : Int)) = -n := Int.toNat_of_nonneg (by omega)
    simp [hcast]
  · simp only [intChars, if_neg hn]
    obtain ⟨d, l, hdl, hd⟩ := natCharsAux_cons n.toNat (n.toNat + 1) (by omega)
    have hne : d ≠ '-' := by
      intro e
      rw [e] at hd
      exact absurd hd (by decide)
    have hrw : natChars n.toNat ++ rest = d :: (l ++ rest) := by
      unfold natChars
      rw [hdl]
      rfl
    rw [hrw]
    have : parseInt (d :: (l ++ rest))
        = match parseNat (d :: (l ++ rest)) with
          | some (m, r) => some ((m : Int), r)
          | none => none := by
      simp [parseInt, hne]
    rw [this, show d :: (l ++ rest) = natChars n.toNat ++ rest from hrw.symm,
      parseNat_natChars _ h]
    have hcast : ((n.toNat : Int)) = n := Int.toNat_of_nonneg (by omega)
    simp [hcast]

lemma expectLit_append (p : List Char) : ∀ l, expectLit p (p ++ l) = some l := by
  induction p with
  | nil => intro l; rfl
  | cons x ps ih => intro l; simp [expectLit, ih]

/-! ## Round-trip lemmas: strings -/

lemma hexVal_hexDigitChar {n : Nat} (h : n < 16) : hexVal (hexDigitChar n) = some n := by
  interval_cases n <;> decide

lemma hexQuad_control {t : Nat} (h : t < 256) :
    hexQuad '0' '0' (hexDigitChar (t / 16)) (hexDigitChar (t % 16)) = some t := by
  have h1 : t / 16 < 16 := by omega
  have h2 : t % 16 < 16 := by omega
  simp only [hexQuad, hexVal_hexDigitChar h1, hexVal_hexDigitChar h2]
  have h3 : 16 * (t / 16) + t % 16 = t := by omega
  simp [hexVal, h3]

lemma parseStringBody_quote (rest acc : List Char) :
    parseStringBody (quoteChar :: rest) acc = some (acc.reverse, rest) := by
  rcases rest with _ | ⟨e, _ | ⟨y1, _ | ⟨y2, _ | ⟨y3, _ | ⟨y4, t⟩⟩⟩⟩⟩ <;> rfl

lemma parseStringBody_esc_quote (l a : List Char) :
    parseStringBody ('\\' :: quoteChar :: l) a = parseStringBody l (quoteChar :: a) := by
  rcases l with _ | ⟨y1, _ | ⟨y2, _ | ⟨y3, _ | ⟨y4, t⟩⟩⟩⟩ <;> rfl

lemma parseStringBody_esc_backslash (l a : List Char) :
    parseStringBody ('\\' :: '\\' :: l) a = parseStringBody l ('\\' :: a) := by
  rcases l with _ | ⟨y1, _ | ⟨y2, _ | ⟨y3, _ | ⟨y4, t⟩⟩⟩⟩ <;> rfl

lemma parseStringBody_esc_b (l a : List Char) :
    parseStringBody ('\\' :: 'b' :: l) a = parseStringBody l ('\x08' :: a) := by
  rcases l with _ | ⟨y1, _ | ⟨y2, _ | ⟨y3, _ | ⟨y4, t⟩⟩⟩⟩ <;> rfl

lemma parseStringBody_esc_t (l a : List Char) :
    parseStringBody ('\\' :: 't' :: l) a = parseStringBody l ('\t' :: a) := by
  rcases l with _ | ⟨y1, _ | ⟨y2, _ | ⟨y3, _ | ⟨y4, t⟩⟩⟩⟩ <;> rfl

lemma parseStringBody_esc_n (l a : List Char) :
    parseStringBody ('\\' :: 'n' :: l) a = parseStringBody l ('\n' :: a) := by
  rcases l with _ | ⟨y1, _ | ⟨y2, _ | ⟨y3, _ | ⟨y4, t⟩⟩⟩⟩ <;> rfl

lemma parseStringBody_esc_f (l a : List Char) :
    parseStringBody ('\\' :: 'f' :: l) a = parseStringBody l ('\x0c' :: a) := by
  rcases l with _ | ⟨y1, _ | ⟨y2, _ | ⟨y3, _ | ⟨y4, t⟩⟩⟩⟩ <;> rfl

lemma parseStringBody_esc_r (l a : List Char) :
    parseStringBody ('\\' :: 'r' :: l) a = parseStringBody l ('\r' :: a) := by
  rcases l with _ | ⟨y1, _ | ⟨y2, _ | ⟨y3, _ | ⟨y4, t⟩⟩⟩⟩ <;> rfl

lemma parseStringBody_esc_unicode {ch : Char} (h : ch.toNat < 32) (l a : List Char) :
    parseStringBody ('\\' :: 'u' :: '0' :: '0'
        :: hexDigitChar (ch.toNat / 16) :: hexDigitChar (ch.toNat % 16) :: l) a
      = parseStringBody l (ch :: a) := by
  have step : parseStringBody ('\\' :: 'u' :: '0' :: '0'
        :: hexDigitChar (ch.toNat / 16) :: hexDigitChar (ch.toNat % 16) :: l) a
      = match hexQuad '0' '0' (hexDigitChar (ch.toNat / 16)) (hexDigitChar (ch.toNat % 16)) with
        | some v =>
          if v.isValidChar then parseStringBody l (Char.ofNat v :: a)
          else none
        | none => none := rfl
  rw [step, hexQuad_control (by omega : ch.toNat < 256)]
  have hvalid : (ch.toNat).isValidChar := Or.inl (by omega)
  simp only [if_pos hvalid, Char.ofNat_toNat]

lemma parseStringBody_plain {ch : Char} (h1 : ch ≠ quoteChar) (h2 : ch ≠ '\\')
    (h3 : ¬ ch.toNat < 32) (rest acc : List Char) :
    parseStringBody (ch :: rest) acc = parseStringBody rest (ch :: acc) := by
  rcases rest with _ | ⟨e, _ | ⟨y1, _ | ⟨y2, _ | ⟨y3, _ | ⟨y4, t⟩⟩⟩⟩⟩ <;>
    simp [parseStringBody, h1, h2, h3]

lemma escapeList_cons (ch : Char) (s : List Char) :
    escapeList (ch :: s) = escapeChar ch ++ escapeList s := by
  simp [escapeList]

lemma parseStringBody_escapeList (s : List Char) : ∀ (acc rest : List Char),
    parseStringBody (escapeList s ++ quoteChar :: rest) acc
      = some (acc.reverse ++ s, rest) := by
  induction s with
  | nil =>
    intro acc rest
    simpa [escapeList] using parseStringBody_quote rest acc
  | cons ch s ih =>
    intro acc rest
    rw [escapeList_cons, List.append_assoc]
    by_cases h1 : ch = quoteChar
    · subst h1
      rw [show escapeChar quoteChar = ['\\', quoteChar] from rfl, List.cons_append,
        List.cons_append, List.nil_append, parseStringBody_esc_quote, ih]
      simp
    by_cases h2 : ch = '\\'
    · subst h2
      rw [show escapeChar '\\' = ['\\', '\\'] from rfl, List.cons_append,
        List.cons_append, List.nil_append, parseStringBody_esc_backslash, ih]
      simp
    by_cases h3 : ch = '\x08'
    · subst h3
      rw [show escapeChar '\x08' = ['\\', 'b'] from rfl, List.cons_append,
        List.cons_append, List.nil_append, parseStringBody_esc_b, ih]
      simp
    by_cases h4 : ch = '\t'
    · subst h4
      rw [show escapeChar '\t' = ['\\', 't'] from rfl, List.cons_append,
        List.cons_append, List.nil_append, parseStringBody_esc_t, ih]
      simp
    by_cases h5 : ch = '\n'
    · subst h5
      rw [show escapeChar '\n' = ['\\', 'n'] from rfl, List.cons_append,
        List.cons_append, List.nil_append, parseStringBody_esc_n, ih]
      simp
    by_cases h6 : ch = '\x0c'
    · subst h6
      rw [show escapeChar '\x0c' = ['\\', 'f'] from rfl, List.cons_append,
        List.cons_append, List.nil_append, parseStringBody_esc_f, ih]
      simp
    by_cases h7 : ch = '\r'
    · subst h7
      rw [show escapeChar '\r' = ['\\', 'r'] from rfl, List.cons_append,
        List.cons_append, List.nil_append, parseStringBody_esc_r, ih]
      simp
    by_cases h8 : ch.toNat < 32
    · rw [show escapeChar ch
          = ['\\', 'u', '0', '0', hexDigitChar (ch.toNat / 16), hexDigitChar (ch.toNat % 16)]
        from by simp [escapeChar, h1, h2, h3, h4, h5, h6, h7, h8]]
      simp only [List.cons_append, List.nil_append]
      rw [parseStringBody_esc_unicode h8, ih]
      simp
    · rw [show escapeChar ch = [ch] from by simp [escapeChar, h1, h2, h3, h4, h5, h6, h7, h8],
        List.cons_append, List.nil_append, parseStringBody_plain h1 h2 h8, ih]
      simp

/-! ## Round-trip lemmas: records and collections -/

lemma parseBool_boolChars (b : Bool) (rest : List Char) :
    parseBool (boolChars b ++ rest) = some (b, rest) := by
  cases b
  · show parseBool ("false".data ++ rest) = some (false, rest)
    unfold parseBool
    rw [show expectLit "true".data ("false".data ++ rest) = none from rfl,
      expectLit_append]
  · show parseBool ("true".data ++ rest) = some (true, rest)
    unfold parseBool
    rw [expectLit_append]

lemma headIsDigit_litTextKey (l : List Char) : headIsDigit (litTextKey ++ l) = false := rfl

lemma parseTodo_serializeTodo (t : Todo) (rest : List Char) :
    parseTodo (serializeTodo t ++ rest) = some (t, rest) := by
  obtain ⟨i, s, b⟩ := t
  have hsplit : serializeTodo ⟨i, s, b⟩ ++ rest
      = litItemOpen ++ (intChars i ++ (litTextKey ++ (escapeList s.data
        ++ quoteChar :: (litDoneKey ++ (boolChars b ++ (litItemClose ++ rest)))))) := by
    simp [serializeTodo, List.append_assoc]
  rw [hsplit]
  unfold parseTodo
  simp only [expectLit_append, parseInt_intChars, headIsDigit_litTextKey,
    parseStringBody_escapeList, parseBool_boolChars, List.reverse_nil, List.nil_append]

lemma parseItemsAux_inv (ts : List Todo) : ∀ (t : Todo) (fuel : Nat) (rest : List Char),
    ts.length < fuel →
    parseItemsAux fuel (serializeTodo t
        ++ (ts.flatMap (fun u => ',' :: serializeTodo u) ++ (']' :: rest)))
      = some (t :: ts, rest) := by
  induction ts with
  | nil =>
    intro t fuel rest hf
    cases fuel with
    | zero => omega
    | succ f =>
      simp only [List.flatMap_nil, List.nil_append]
      simp [parseItemsAux, parseTodo_serializeTodo]
  | cons u ts' ih =>
    intro t fuel rest hf
    cases fuel with
    | zero => omega
    | succ f =>
      rw [show (u :: ts').flatMap (fun v => ',' :: serializeTodo v)
          = ',' :: (serializeTodo u ++ (ts'.flatMap (fun v => ',' :: serializeTodo v)))
        from by simp]
      rw [show serializeTodo t ++ (',' :: (serializeTodo u
            ++ ts'.flatMap (fun v => ',' :: serializeTodo v)) ++ (']' :: rest))
          = serializeTodo t ++ (',' :: (serializeTodo u
            ++ (ts'.flatMap (fun v => ',' :: serializeTodo v) ++ (']' :: rest))))
        from by simp]
      simp only [parseItemsAux, parseTodo_serializeTodo]
      rw [ih u f rest (by simpa using Nat.lt_of_succ_lt_succ hf)]

lemma serializeTodo_cons (t : Todo) :
    serializeTodo t = '\x7b' :: ("\"id\":".data ++ intChars t.id ++ litTextKey
      ++ escapeList t.text.data ++ quoteChar :: (litDoneKey ++ boolChars t.done ++ litItemClose)) := by
  simp [serializeTodo, litItemOpen]

lemma flatMap_sep_length (ts : List Todo) :
    ts.length ≤ (ts.flatMap (fun u => ',' :: serializeTodo u)).length := by
  induction ts with
  | nil => simp
  | cons u ts' ih =>
    simp only [List.flatMap_cons, List.length_append, List.length_cons]
    omega

/-- C8: serializing any collection to the persisted textual format and
deserializing it back yields exactly the original collection — same ids, texts
(arbitrary characters, escapes included) and done flags, in the same order. -/
theorem persist_roundtrip (ts : List Todo) :
    parseTodos (serializeTodos ts) = some ts := by
  cases ts with
  | nil => rfl
  | cons t ts' =>
    have hbody := serializeTodo_cons t
    set body := "\"id\":".data ++ intChars t.id ++ litTextKey
      ++ escapeList t.text.data
      ++ quoteChar :: (litDoneKey ++ boolChars t.done ++ litItemClose) with hbodydef
    rw [show serializeTodos (t :: ts')
        = String.mk ('[' :: (serializeTodo t
            ++ ts'.flatMap (fun u => ',' :: serializeTodo u) ++ [']'])) from rfl]
    rw [hbody]
    rw [show ('\x7b' :: body) ++ ts'.flatMap (fun u => ',' :: serializeTodo u) ++ ([']'] : List Char)
        = '\x7b' :: (body ++ ts'.flatMap (fun u => ',' :: serializeTodo u) ++ [']']) from by simp]
    rw [show parseTodos (String.mk ('[' :: '\x7b'
          :: (body ++ ts'.flatMap (fun u => ',' :: serializeTodo u) ++ [']'])))
        = (match parseItemsAux ('\x7b' :: (body ++ ts'.flatMap (fun u => ',' :: serializeTodo u)
              ++ [']'])).length ('\x7b' :: (body ++ ts'.flatMap (fun u => ',' :: serializeTodo u)
              ++ [']'])) with
           | some (us, r) => if r.isEmpty then some us else none
           | none => none) from rfl]
    have hshape : '\x7b' :: (body ++ ts'.flatMap (fun u => ',' :: serializeTodo u) ++ [']'])
        = serializeTodo t ++ (ts'.flatMap (fun u => ',' :: serializeTodo u) ++ (']' :: [])) := by
      rw [hbody]
      simp
    rw [hshape]
    have hfuel : ts'.length < (serializeTodo t
        ++ (ts'.flatMap (fun u => ',' :: serializeTodo u) ++ (']' :: []))).length := by
      have hsep := flatMap_sep_length ts'
      simp only [List.length_append, List.length_cons, List.length_nil]
      omega
    rw [parseItemsAux_inv ts' t _ [] hfuel]
    rfl

/-- The `useState` initializer at `App.tsx:38-44`:
`const todos = localStorage.getItem('todos'); if (todos) return JSON.parse(todos) as Todo[]; return []`.
`getItem` yields `null` (here `none`) when the key is absent; the string is
parsed only when truthy, i.e. non-empty; a `JSON.parse` failure propagates as
an exception (here `Except.error`). -/
def loadTodos (slot : Option String) : Except String (List Todo) :=
  match slot with
  | none => Except.ok []
  | some s =>
    if s.isEmpty then Except.ok []
    else
      match parseTodos s with
      | some ts => Except.ok ts
      | none => Except.error "SyntaxError: malformed persisted todos"

/-- C7 counterexample: with the slot present but holding the empty string, its
value is not deserialized — `JSON.parse ""` would fail, yet the startup read
returns the empty collection instead of propagating a failure, because the
code's `if (todos)` tests JS truthiness, and the empty string is falsy. -/
theorem startup_empty_string_cex :
    loadTodos (some "") = Except.ok [] ∧ parseTodos "" = none := ⟨rfl, rfl⟩

/-- C7 (amended): at startup, an absent slot or a present-but-empty-string slot
yields the empty collection; a present non-empty value is deserialized, with a
deserialization failure propagating as a fatal condition (no fallback). -/
theorem startup_read_spec :
    loadTodos none = Except.ok []
    ∧ loadTodos (some "") = Except.ok []
    ∧ (∀ s : String, s ≠ "" →
        (∀ ts : List Todo, parseTodos s = some ts → loadTodos (some s) = Except.ok ts)
        ∧ (parseTodos s = none → ∃ e, loadTodos (some s) = Except.error e)) := by
  refine ⟨rfl, rfl, ?_⟩
  intro s hs
  have hempty : s.isEmpty = false := by
    rw [Bool.eq_false_iff]
    intro h
    exact hs ((String.isEmpty_iff s).mp h)
  constructor
  · intro ts hp
    simp [loadTodos, hempty, hp]
  · intro hp
    exact ⟨"SyntaxError: malformed persisted todos", by simp [loadTodos, hempty, hp]⟩

/-- C7 witness: the spec's sample slot value `[{"id":5,"text":"x","done":true}]`
loads as the one-item collection with id 5, text "x", done true. -/
theorem startup_read_spec_witness :
    loadTodos (some "[\x7b\"id\":5,\"text\":\"x\",\"done\":true\x7d]")
      = Except.ok [⟨5, "x", true⟩] :=
  (startup_read_spec.2.2 "[\x7b\"id\":5,\"text\":\"x\",\"done\":true\x7d]" (by decide)).1
    [⟨5, "x", true⟩] (by decide)

end TodoApp
